import Mathlib

/-!
Verification of the segment-grouping core of the eaf2dataset repository
(src/parse_eaf.py, src/bulk_parse_eaf.py), shallowly embedded in Lean.

Python integers become Int (time offsets, which may go negative under
subtraction) or Nat (string lengths); Python lists become List; the mutable
loop state of group_transcription_segments becomes an explicit fold over a
state record.  Python's unordered set of tier ids is modelled as an
insertion-ordered duplicate-free list: the source's set iteration order is
unspecified, and no property below depends on the join order.
-/

set_option maxHeartbeats 1000000

namespace EafToDataset

/-- TimeSlot dataclass of parse_eaf.py: a named point in time. -/
structure TimeSlot where
  id : String
  time_value : Int
deriving DecidableEq

/-- Annotation dataclass of parse_eaf.py: one labeled time interval on one
tier; times are millisecond offsets resolved from time-slot ids at load. -/
structure Annotation where
  id : String
  tier_id : String
  time_slot_start_id : String
  time_slot_start : Int
  time_slot_end_id : String
  time_slot_end : Int
  annotation_value : String
deriving DecidableEq

/-- Tier dataclass of parse_eaf.py. -/
structure Tier where
  id : String
  tier_id : String
  annotator : String
  participant : String
  annotations : List Annotation
deriving DecidableEq

/-- AnnotationDoc dataclass of parse_eaf.py. -/
structure AnnotationDoc where
  media_url : String
  eaf_path : String
  tiers : List Tier
  time_slots : List TimeSlot
deriving DecidableEq

/-- The list-comprehension lookup of map_annotations:
first time slot whose id matches (the source indexes [0] and would raise on
a missing slot; the embedding returns none there). -/
def resolveTimeSlot (time_slots : List TimeSlot) (slot_id : String) : Option Int :=
  ((time_slots.filter (fun ts => ts.id = slot_id)).map TimeSlot.time_value).head?

/-- The per-segment admission filter of group_transcription_segments
(lines 203-213 of parse_eaf.py): a segment is kept unless it is longer than
30000 ms, has empty text, or has text longer than 700 characters.  The three
thresholds are literals in the source, not parameters. -/
def admittedSegment (segment : Annotation) : Bool :=
  !(decide (segment.time_slot_end - segment.time_slot_start > 30000)
    || decide (segment.annotation_value.length = 0)
    || decide (segment.annotation_value.length > 700))

/-- Loop state of group_transcription_segments: the finalized chunks and the
chunk being built together with its accumulated tier-id set. -/
structure GState where
  grouped_chunks : List Annotation
  current_chunk : Option ( Annotation × List String)
deriving DecidableEq

/-- Python set.add on the insertion-ordered model of the tier-id set. -/
def addTierId (tids : List String) (t : String) : List String :=
  if t ∈ tids then tids else tids ++ [t]

/-- Finalization of a chunk (lines 242 and 265 of parse_eaf.py): the chunk's
tier_id becomes the pipe-join of the accumulated tier-id set. -/
def finalizeChunk (current : Annotation) (tids : List String) : Annotation :=
  { current with tier_id := String.intercalate "|" tids }

/-- One iteration of the scan of group_transcription_segments (lines 197-261
of parse_eaf.py): filter checks, then open / split / merge. -/
def stepSegment (max_chunk_duration max_gap_between_segments : Int)
    (max_text_len : Nat) (st : GState) (segment : Annotation) : GState :=
  if segment.time_slot_end - segment.time_slot_start > 30000 then st
  else if segment.annotation_value.length = 0 then st
  else if segment.annotation_value.length > 700 then st
  else
    match st.current_chunk with
    | none =>
        { st with current_chunk := some (segment, [segment.tier_id]) }
    | some (current, tids) =>
        let gap := segment.time_slot_start - current.time_slot_end
        let potential_total_duration := segment.time_slot_end - current.time_slot_start
        let potential_text_len :=
          segment.annotation_value.length + current.annotation_value.length
        if gap > max_gap_between_segments ∨
            potential_total_duration > max_chunk_duration ∨
            potential_text_len > max_text_len then
          { grouped_chunks := st.grouped_chunks ++ [finalizeChunk current tids],
            current_chunk := some (segment, [segment.tier_id]) }
        else
          let merged : Annotation :=
            { current with
                annotation_value :=
                  current.annotation_value ++ " | " ++ segment.annotation_value,
                time_slot_end := segment.time_slot_end }
          { st with current_chunk := some (merged, addTierId tids segment.tier_id) }

/-- End of the scan (lines 264-266): the still-open chunk, if any, is
finalized and appended. -/
def flushChunks (st : GState) : List Annotation :=
  match st.current_chunk with
  | none => st.grouped_chunks
  | some (current, tids) => st.grouped_chunks ++ [finalizeChunk current tids]

/-- Sort key of line 191 of parse_eaf.py.  Python's list.sort is a stable
sort by this key; the embedding uses the (equally stable) insertion sort, so
ties keep their original relative order in both. -/
def startOrder (a b : Annotation) : Prop :=
  a.time_slot_start ≤ b.time_slot_start

instance : DecidableRel startOrder :=
  fun a b => inferInstanceAs (Decidable (a.time_slot_start ≤ b.time_slot_start))

instance : IsTotal Annotation startOrder :=
  ⟨fun a b => Int.le_total a.time_slot_start b.time_slot_start⟩

instance : IsTrans Annotation startOrder :=
  ⟨fun _ _ _ hab hbc => le_trans hab hbc⟩

/-- The scan of group_transcription_segments over an already flattened and
sorted segment list. -/
def groupSorted (max_chunk_duration max_gap_between_segments : Int)
    (max_text_len : Nat) (segs : List Annotation) : List Annotation :=
  flushChunks
    (segs.foldl (stepSegment max_chunk_duration max_gap_between_segments max_text_len)
      ⟨[], none⟩)

/-- Flattening of all tiers' annotations (lines 188-189 of parse_eaf.py). -/
def flattenTiers (doc : AnnotationDoc) : List Annotation :=
  (doc.tiers.map Tier.annotations).flatten

/-- group_transcription_segments of parse_eaf.py with its default parameters
26000 / 500 / 500: flatten the tiers, stable-sort by time_slot_start, scan.
A document with no tiers returns the empty list (lines 186-195). -/
def group_transcription_segments (annotation_doc : AnnotationDoc)
    (max_chunk_duration : Int := 26000) (max_gap_between_segments : Int := 500)
    (max_text_len : Nat := 500) : List Annotation :=
  if 0 < annotation_doc.tiers.length then
    groupSorted max_chunk_duration max_gap_between_segments max_text_len
      (List.insertionSort startOrder (flattenTiers annotation_doc))
  else []

/-!
Instrumented grouper: the same scan, but every chunk additionally carries the
ghost list of admitted segments that formed it, first to last.  The ghost data
feeds nothing back into the computation; erasing it recovers the plain scan
(proved below), so statements about the instrumented scan are statements about
group_transcription_segments.
-/

/-- Loop state of the instrumented scan. -/
structure IGState where
  grouped_chunks : List ( Annotation × List Annotation)
  current_chunk : Option ( Annotation × List String × List Annotation)
deriving DecidableEq

/-- One iteration of the instrumented scan; mirrors stepSegment. -/
def stepSegmentI (max_chunk_duration max_gap_between_segments : Int)
    (max_text_len : Nat) (st : IGState) (segment : Annotation) : IGState :=
  if segment.time_slot_end - segment.time_slot_start > 30000 then st
  else if segment.annotation_value.length = 0 then st
  else if segment.annotation_value.length > 700 then st
  else
    match st.current_chunk with
    | none =>
        { st with current_chunk := some (segment, [segment.tier_id], [segment]) }
    | some (current, tids, bsegs) =>
        let gap := segment.time_slot_start - current.time_slot_end
        let potential_total_duration := segment.time_slot_end - current.time_slot_start
        let potential_text_len :=
          segment.annotation_value.length + current.annotation_value.length
        if gap > max_gap_between_segments ∨
            potential_total_duration > max_chunk_duration ∨
            potential_text_len > max_text_len then
          { grouped_chunks := st.grouped_chunks ++ [(finalizeChunk current tids, bsegs)],
            current_chunk := some (segment, [segment.tier_id], [segment]) }
        else
          let merged : Annotation :=
            { current with
                annotation_value :=
                  current.annotation_value ++ " | " ++ segment.annotation_value,
                time_slot_end := segment.time_slot_end }
          { st with current_chunk := some (merged, addTierId tids segment.tier_id, bsegs ++ [segment]) }

/-- End of the instrumented scan; mirrors flushChunks. -/
def flushChunksI (st : IGState) : List ( Annotation × List Annotation) :=
  match st.current_chunk with
  | none => st.grouped_chunks
  | some (current, tids, bsegs) =>
      st.grouped_chunks ++ [(finalizeChunk current tids, bsegs)]

/-- The instrumented scan over a flattened, sorted segment list. -/
def groupSortedI (max_chunk_duration max_gap_between_segments : Int)
    (max_text_len : Nat) (segs : List Annotation) : List ( Annotation × List Annotation) :=
  flushChunksI
    (segs.foldl (stepSegmentI max_chunk_duration max_gap_between_segments max_text_len)
      ⟨[], none⟩)

/-- Instrumented group_transcription_segments. -/
def group_transcription_segmentsI (annotation_doc : AnnotationDoc)
    (max_chunk_duration : Int := 26000) (max_gap_between_segments : Int := 500)
    (max_text_len : Nat := 500) : List ( Annotation × List Annotation) :=
  if 0 < annotation_doc.tiers.length then
    groupSortedI max_chunk_duration max_gap_between_segments max_text_len
      (List.insertionSort startOrder (flattenTiers annotation_doc))
  else []

/-- Ghost erasure on the open chunk. -/
def eraseGhostCur :
    Option ( Annotation × List String × List Annotation) → Option ( Annotation × List String)
  | none => none
  | some (current, tids, _) => some (current, tids)

/-- Ghost erasure on the whole state. -/
def eraseGhost (st : IGState) : GState :=
  ⟨st.grouped_chunks.map Prod.fst, eraseGhostCur st.current_chunk⟩

theorem stepSegment_eraseGhost (maxD maxG : Int) (maxL : Nat) (st : IGState)
    (segment : Annotation) :
    stepSegment maxD maxG maxL (eraseGhost st) segment =
      eraseGhost (stepSegmentI maxD maxG maxL st segment) := by
  obtain ⟨chunks, cur⟩ := st
  rcases cur with _ | ⟨current, tids, bsegs⟩ <;>
    simp only [stepSegment, stepSegmentI, eraseGhost, eraseGhostCur] <;>
    split_ifs <;>
    simp [eraseGhostCur]

theorem foldl_stepSegment_eraseGhost (maxD maxG : Int) (maxL : Nat)
    (segs : List Annotation) (st : IGState) :
    segs.foldl (stepSegment maxD maxG maxL) (eraseGhost st) =
      eraseGhost (segs.foldl (stepSegmentI maxD maxG maxL) st) := by
  induction segs generalizing st with
  | nil => rfl
  | cons s rest ih =>
      simp only [List.foldl_cons, stepSegment_eraseGhost, ih]

theorem flushChunks_eraseGhost (st : IGState) :
    flushChunks (eraseGhost st) = (flushChunksI st).map Prod.fst := by
  obtain ⟨chunks, cur⟩ := st
  rcases cur with _ | ⟨current, tids, bsegs⟩ <;>
    simp [flushChunks, flushChunksI, eraseGhost, eraseGhostCur]

theorem groupSorted_eq_groupSortedI (maxD maxG : Int) (maxL : Nat)
    (segs : List Annotation) :
    groupSorted maxD maxG maxL segs = (groupSortedI maxD maxG maxL segs).map Prod.fst := by
  have h0 : (⟨[], none⟩ : GState) = eraseGhost ⟨[], none⟩ := rfl
  simp only [groupSorted, groupSortedI, h0, foldl_stepSegment_eraseGhost,
    flushChunks_eraseGhost]

theorem group_eq_groupI (doc : AnnotationDoc) (maxD maxG : Int) (maxL : Nat) :
    group_transcription_segments doc maxD maxG maxL =
      (group_transcription_segmentsI doc maxD maxG maxL).map Prod.fst := by
  simp only [group_transcription_segments, group_transcription_segmentsI]
  split_ifs <;> simp [groupSorted_eq_groupSortedI]

/-- The text a chunk accumulates: first text, then each later text appended
behind a " | " separator, exactly as line 260 of parse_eaf.py builds it. -/
def pipeJoin : List String → String
  | [] => ""
  | t :: ts => ts.foldl (fun acc u => acc ++ " | " ++ u) t

theorem pipeJoin_concat (l : List String) (x : String) (h : l ≠ []) :
    pipeJoin (l ++ [x]) = pipeJoin l ++ " | " ++ x := by
  cases l with
  | nil => exact absurd rfl h
  | cons t ts => simp [pipeJoin, List.foldl_append]

theorem admittedSegment_iff (s : Annotation) :
    admittedSegment s = true ↔
      s.time_slot_end - s.time_slot_start ≤ 30000 ∧
        s.annotation_value.length ≠ 0 ∧ s.annotation_value.length ≤ 700 := by
  simp only [admittedSegment, Bool.not_eq_true', Bool.or_eq_false_iff, decide_eq_false_iff_not]
  omega

/-- Everything the scan guarantees of one chunk (finalized or still open)
together with the ghost list of segments that formed it: the chunk's id and
both time-slot ids come from the first segment, its start is the first
segment's start, its end the last segment's end, its text the pipe-join of
the segments' texts, every segment passed the admission filter, and a chunk
of two or more segments never exceeds max_chunk_duration. -/
def chunkOk (maxD : Int) (pr : Annotation × List Annotation) : Prop :=
  ∃ first rest, pr.2 = first :: rest ∧
    pr.1.id = first.id ∧
    pr.1.time_slot_start_id = first.time_slot_start_id ∧
    pr.1.time_slot_end_id = first.time_slot_end_id ∧
    pr.1.time_slot_start = first.time_slot_start ∧
    pr.1.time_slot_end = (rest.getLastD first).time_slot_end ∧
    pr.1.annotation_value = pipeJoin (pr.2.map Annotation.annotation_value) ∧
    (∀ a ∈ pr.2, admittedSegment a = true) ∧
    (rest ≠ [] → pr.1.time_slot_end - pr.1.time_slot_start ≤ maxD)

theorem chunkOk_finalize (maxD : Int) (current : Annotation) (tids : List String)
    (bsegs : List Annotation) (h : chunkOk maxD (current, bsegs)) :
    chunkOk maxD (finalizeChunk current tids, bsegs) := by
  simpa only [chunkOk, finalizeChunk] using h

theorem chunkOk_single (maxD : Int) (segment : Annotation)
    (h : admittedSegment segment = true) : chunkOk maxD (segment, [segment]) :=
  ⟨segment, [], rfl, rfl, rfl, rfl, rfl, rfl, rfl, by simpa using h, by simp⟩

theorem chunkOk_merge (maxD : Int) (current segment : Annotation)
    (bsegs : List Annotation) (h : chunkOk maxD (current, bsegs))
    (hadm : admittedSegment segment = true)
    (hdur : segment.time_slot_end - current.time_slot_start ≤ maxD) :
    chunkOk maxD
      ({ current with
          annotation_value := current.annotation_value ++ " | " ++ segment.annotation_value,
          time_slot_end := segment.time_slot_end }, bsegs ++ [segment]) := by
  obtain ⟨first, rest, hb, hid, hsid, heid, hstart, hend, htext, hall, hdur0⟩ := h
  have hb' : bsegs = first :: rest := hb
  subst hb'
  have hall' : ∀ a ∈ first :: rest, admittedSegment a = true := hall
  have htext' : current.annotation_value =
      pipeJoin (List.map Annotation.annotation_value (first :: rest)) := htext
  refine ⟨first, rest ++ [segment], rfl, hid, hsid, heid, hstart, ?_, ?_, ?_, ?_⟩
  · simp [List.getLastD_concat]
  · have hsplit : first :: (rest ++ [segment]) = (first :: rest) ++ [segment] := rfl
    show current.annotation_value ++ " | " ++ segment.annotation_value =
      pipeJoin (List.map Annotation.annotation_value (first :: (rest ++ [segment])))
    rw [hsplit, List.map_append]
    rw [show List.map Annotation.annotation_value [segment] = [segment.annotation_value] from rfl]
    rw [pipeJoin_concat _ _ (by simp), ← htext']
  · intro a ha
    have ha' : a ∈ (first :: rest) ++ [segment] := ha
    rcases List.mem_append.1 ha' with h1 | h1
    · exact hall' a h1
    · simp only [List.mem_singleton] at h1
      exact h1 ▸ hadm
  · intro _
    simpa [hstart] using hdur

/-- Invariant of the instrumented scan state. -/
def StOk (maxD : Int) (st : IGState) : Prop :=
  (∀ pr ∈ st.grouped_chunks, chunkOk maxD pr) ∧
    ∀ current tids bsegs, st.current_chunk = some (current, tids, bsegs) →
      chunkOk maxD (current, bsegs)

theorem stepSegmentI_StOk (maxD maxG : Int) (maxL : Nat) (st : IGState)
    (segment : Annotation) (h : StOk maxD st) :
    StOk maxD (stepSegmentI maxD maxG maxL st segment) := by
  obtain ⟨chunks, cur⟩ := st
  obtain ⟨hchunks, hcur⟩ := h
  by_cases h1 : segment.time_slot_end - segment.time_slot_start > 30000
  · simpa [stepSegmentI, h1] using ⟨hchunks, hcur⟩
  by_cases h2 : segment.annotation_value.length = 0
  · simpa [stepSegmentI, h1, h2] using ⟨hchunks, hcur⟩
  by_cases h3 : segment.annotation_value.length > 700
  · simpa [stepSegmentI, h1, h2, h3] using ⟨hchunks, hcur⟩
  have hadm : admittedSegment segment = true := by
    rw [admittedSegment_iff]; omega
  rcases cur with _ | ⟨current, tids, bsegs⟩
  · refine ⟨?_, ?_⟩ <;> simp only [stepSegmentI, h1, h2, h3, if_false, if_neg, gt_iff_lt]
    · simpa [h1, h2, h3] using hchunks
    · intro c t b hb
      simp [h1, h2, h3] at hb
      obtain ⟨hc, ht, hbs⟩ := hb
      subst hc; subst hbs
      exact chunkOk_single maxD segment hadm
  · have hcurOk : chunkOk maxD (current, bsegs) := hcur current tids bsegs rfl
    by_cases hc : segment.time_slot_start - current.time_slot_end > maxG ∨
        segment.time_slot_end - current.time_slot_start > maxD ∨
        segment.annotation_value.length + current.annotation_value.length > maxL
    · refine ⟨?_, ?_⟩
      · intro pr hpr
        simp [stepSegmentI, h1, h2, h3, hc] at hpr
        rcases hpr with hpr | hpr
        · exact hchunks pr hpr
        · rw [hpr]
          exact chunkOk_finalize maxD current tids bsegs hcurOk
      · intro c t b hb
        simp [stepSegmentI, h1, h2, h3, hc] at hb
        obtain ⟨hc', ht, hbs⟩ := hb
        subst hc'; subst hbs
        exact chunkOk_single maxD segment hadm
    · refine ⟨?_, ?_⟩
      · intro pr hpr
        simp [stepSegmentI, h1, h2, h3, hc] at hpr
        exact hchunks pr hpr
      · intro c t b hb
        simp [stepSegmentI, h1, h2, h3, hc] at hb
        obtain ⟨hc', ht, hbs⟩ := hb
        subst hc'; subst hbs
        have hdur : segment.time_slot_end - current.time_slot_start ≤ maxD := by
          push_neg at hc
          exact hc.2.1
        exact chunkOk_merge maxD current segment bsegs hcurOk hadm hdur

theorem foldl_stepSegmentI_StOk (maxD maxG : Int) (maxL : Nat)
    (segs : List Annotation) (st : IGState) (h : StOk maxD st) :
    StOk maxD (segs.foldl (stepSegmentI maxD maxG maxL) st) := by
  induction segs generalizing st with
  | nil => exact h
  | cons s rest ih =>
      exact ih _ (stepSegmentI_StOk maxD maxG maxL st s h)

theorem flushChunksI_chunkOk (maxD : Int) (st : IGState) (h : StOk maxD st) :
    ∀ pr ∈ flushChunksI st, chunkOk maxD pr := by
  obtain ⟨chunks, cur⟩ := st
  obtain ⟨hchunks, hcur⟩ := h
  rcases cur with _ | ⟨current, tids, bsegs⟩
  · simpa [flushChunksI] using hchunks
  · intro pr hpr
    simp [flushChunksI] at hpr
    rcases hpr with hpr | hpr
    · exact hchunks pr hpr
    · rw [hpr]
      exact chunkOk_finalize maxD current tids bsegs (hcur current tids bsegs rfl)

theorem groupSortedI_chunkOk (maxD maxG : Int) (maxL : Nat) (segs : List Annotation) :
    ∀ pr ∈ groupSortedI maxD maxG maxL segs, chunkOk maxD pr :=
  flushChunksI_chunkOk maxD _
    (foldl_stepSegmentI_StOk maxD maxG maxL segs ⟨[], none⟩
      ⟨by simp, by intro _ _ _ hb; cases hb⟩)

/-- All ghost segments the state holds, finalized chunks first. -/
def ghostSegs (st : IGState) : List Annotation :=
  (st.grouped_chunks.map Prod.snd).flatten ++
    (match st.current_chunk with
     | none => []
     | some (_, _, bsegs) => bsegs)

theorem ghostSegs_step (maxD maxG : Int) (maxL : Nat) (st : IGState)
    (segment : Annotation) :
    ghostSegs (stepSegmentI maxD maxG maxL st segment) =
      ghostSegs st ++ (if admittedSegment segment = true then [segment] else []) := by
  obtain ⟨chunks, cur⟩ := st
  by_cases h1 : segment.time_slot_end - segment.time_slot_start > 30000
  · have hn : ¬admittedSegment segment = true := by
      rw [admittedSegment_iff]; omega
    rcases cur with _ | ⟨current, tids, bsegs⟩ <;> simp [stepSegmentI, ghostSegs, h1, hn]
  by_cases h2 : segment.annotation_value.length = 0
  · have hn : ¬admittedSegment segment = true := by
      rw [admittedSegment_iff]; omega
    rcases cur with _ | ⟨current, tids, bsegs⟩ <;> simp [stepSegmentI, ghostSegs, h1, h2, hn]
  by_cases h3 : segment.annotation_value.length > 700
  · have hn : ¬admittedSegment segment = true := by
      rw [admittedSegment_iff]; omega
    rcases cur with _ | ⟨current, tids, bsegs⟩ <;>
      simp [stepSegmentI, ghostSegs, h1, h2, h3, hn]
  have hadm : admittedSegment segment = true := by
    rw [admittedSegment_iff]; omega
  rcases cur with _ | ⟨current, tids, bsegs⟩
  · simp [stepSegmentI, ghostSegs, h1, h2, h3, hadm]
  · by_cases hc : segment.time_slot_start - current.time_slot_end > maxG ∨
        segment.time_slot_end - current.time_slot_start > maxD ∨
        segment.annotation_value.length + current.annotation_value.length > maxL <;>
      simp [stepSegmentI, ghostSegs, h1, h2, h3, hc, hadm]

theorem ghostSegs_foldl (maxD maxG : Int) (maxL : Nat) (segs : List Annotation)
    (st : IGState) :
    ghostSegs (segs.foldl (stepSegmentI maxD maxG maxL) st) =
      ghostSegs st ++ segs.filter admittedSegment := by
  induction segs generalizing st with
  | nil => simp
  | cons s rest ih =>
      rw [List.foldl_cons, ih, ghostSegs_step, List.filter_cons]
      by_cases h : admittedSegment s = true <;> simp [h]

theorem flushChunksI_ghost (st : IGState) :
    ((flushChunksI st).map Prod.snd).flatten = ghostSegs st := by
  obtain ⟨chunks, cur⟩ := st
  rcases cur with _ | ⟨current, tids, bsegs⟩ <;> simp [flushChunksI, ghostSegs]

theorem groupSortedI_ghost (maxD maxG : Int) (maxL : Nat) (segs : List Annotation) :
    ((groupSortedI maxD maxG maxL segs).map Prod.snd).flatten =
      segs.filter admittedSegment := by
  rw [groupSortedI, flushChunksI_ghost, ghostSegs_foldl]
  rfl

/-- First element of every nonempty block, in order. -/
def firsts : List (List Annotation) → List Annotation
  | [] => []
  | [] :: bs => firsts bs
  | (a :: _) :: bs => a :: firsts bs

theorem firsts_sublist_flatten :
    ∀ bs : List (List Annotation), (firsts bs).Sublist bs.flatten
  | [] => by simp [firsts]
  | [] :: bs => by simpa [firsts] using firsts_sublist_flatten bs
  | (a :: t) :: bs => by
      simp only [firsts, List.flatten_cons, List.cons_append]
      exact ((firsts_sublist_flatten bs).trans (List.sublist_append_right t _)).cons₂ a

theorem map_start_eq_firsts (maxD : Int) :
    ∀ prs : List ( Annotation × List Annotation), (∀ pr ∈ prs, chunkOk maxD pr) →
      prs.map (fun pr => pr.1.time_slot_start) =
        (firsts (prs.map Prod.snd)).map Annotation.time_slot_start := by
  intro prs
  induction prs with
  | nil => intro _; rfl
  | cons pr rest ih =>
      intro h
      obtain ⟨first, r, hb, _, _, _, hstart, _⟩ := h pr (List.mem_cons_self pr rest)
      have hrest := ih fun q hq => h q (List.mem_cons_of_mem pr hq)
      simp only [List.map_cons, hb, firsts, hstart, hrest]

theorem length_le_length_flatten (bs : List (List Annotation))
    (h : ∀ b ∈ bs, b ≠ []) : bs.length ≤ bs.flatten.length := by
  induction bs with
  | nil => simp
  | cons b rest ih =>
      have hb : 0 < b.length :=
        List.length_pos.mpr (h b (List.mem_cons_self b rest))
      have := ih fun q hq => h q (List.mem_cons_of_mem b hq)
      simp only [List.length_cons, List.flatten_cons, List.length_append]
      omega

theorem stepSegment_not_admitted (maxD maxG : Int) (maxL : Nat) (st : GState)
    (s : Annotation) (h : admittedSegment s = false) :
    stepSegment maxD maxG maxL st s = st := by
  have h' : ¬(s.time_slot_end - s.time_slot_start ≤ 30000 ∧
      s.annotation_value.length ≠ 0 ∧ s.annotation_value.length ≤ 700) := by
    rw [← admittedSegment_iff, h]; simp
  by_cases h1 : s.time_slot_end - s.time_slot_start > 30000
  · simp [stepSegment, h1]
  by_cases h2 : s.annotation_value.length = 0
  · simp [stepSegment, h1, h2]
  by_cases h3 : s.annotation_value.length > 700
  · simp [stepSegment, h1, h2, h3]
  exact absurd ⟨by omega, h2, by omega⟩ h'

theorem foldl_stepSegment_filter (maxD maxG : Int) (maxL : Nat) :
    ∀ (segs : List Annotation) (st : GState),
      segs.foldl (stepSegment maxD maxG maxL) st =
        (segs.filter admittedSegment).foldl (stepSegment maxD maxG maxL) st := by
  intro segs
  induction segs with
  | nil => intro _; rfl
  | cons s rest ih =>
      intro st
      rw [List.foldl_cons, List.filter_cons]
      by_cases h : admittedSegment s = true
      · rw [if_pos h, List.foldl_cons, ih]
      · rw [if_neg h, stepSegment_not_admitted maxD maxG maxL st s
          (Bool.eq_false_iff.mpr h), ih]

/-- Claim C1: with a current chunk open and an admitted segment s, the scan
finalizes the chunk and starts a new one exactly when the gap, the potential
duration, or the potential text length exceeds its bound; otherwise it merges
s into the chunk, appending the text behind " | " and moving time_slot_end to
the segment's end, with time_slot_start untouched. -/
theorem split_decision_iff (maxD maxG : Int) (maxL : Nat) (st : GState)
    (current : Annotation) (tids : List String) (segment : Annotation)
    (hcur : st.current_chunk = some (current, tids))
    (hadm : admittedSegment segment = true) :
    ((stepSegment maxD maxG maxL st segment).grouped_chunks ≠ st.grouped_chunks ↔
      (segment.time_slot_start - current.time_slot_end > maxG ∨
        segment.time_slot_end - current.time_slot_start > maxD ∨
        segment.annotation_value.length + current.annotation_value.length > maxL)) ∧
    ((segment.time_slot_start - current.time_slot_end > maxG ∨
        segment.time_slot_end - current.time_slot_start > maxD ∨
        segment.annotation_value.length + current.annotation_value.length > maxL) →
      stepSegment maxD maxG maxL st segment =
        { grouped_chunks := st.grouped_chunks ++ [finalizeChunk current tids],
          current_chunk := some (segment, [segment.tier_id]) }) ∧
    (¬(segment.time_slot_start - current.time_slot_end > maxG ∨
        segment.time_slot_end - current.time_slot_start > maxD ∨
        segment.annotation_value.length + current.annotation_value.length > maxL) →
      stepSegment maxD maxG maxL st segment =
        { grouped_chunks := st.grouped_chunks,
          current_chunk := some
            ({ current with
                annotation_value :=
                  current.annotation_value ++ " | " ++ segment.annotation_value,
                time_slot_end := segment.time_slot_end },
              addTierId tids segment.tier_id) }) := by
  obtain ⟨h1, h2, h3⟩ := (admittedSegment_iff segment).1 hadm
  obtain ⟨chunks, cur⟩ := st
  simp only at hcur
  subst hcur
  have hn1 : ¬segment.time_slot_end - segment.time_slot_start > 30000 := by omega
  have hn3 : ¬segment.annotation_value.length > 700 := by omega
  have hsplit : ∀ hc : segment.time_slot_start - current.time_slot_end > maxG ∨
      segment.time_slot_end - current.time_slot_start > maxD ∨
      segment.annotation_value.length + current.annotation_value.length > maxL,
      stepSegment maxD maxG maxL ⟨chunks, some (current, tids)⟩ segment =
        { grouped_chunks := chunks ++ [finalizeChunk current tids],
          current_chunk := some (segment, [segment.tier_id]) } := by
    intro hc
    simp [stepSegment, hn1, h2, hn3, hc]
  have hmerge : ∀ hc : ¬(segment.time_slot_start - current.time_slot_end > maxG ∨
      segment.time_slot_end - current.time_slot_start > maxD ∨
      segment.annotation_value.length + current.annotation_value.length > maxL),
      stepSegment maxD maxG maxL ⟨chunks, some (current, tids)⟩ segment =
        { grouped_chunks := chunks,
          current_chunk := some
            ({ current with
                annotation_value :=
                  current.annotation_value ++ " | " ++ segment.annotation_value,
                time_slot_end := segment.time_slot_end },
              addTierId tids segment.tier_id) } := by
    intro hc
    simp [stepSegment, hn1, h2, hn3, hc]
  refine ⟨⟨?_, ?_⟩, hsplit, hmerge⟩
  · intro hne
    by_contra hc
    exact hne (by rw [hmerge hc])
  · intro hc
    rw [hsplit hc]
    intro heq
    have := congrArg List.length heq
    simp at this

def c1_st : GState :=
  ⟨[], some (⟨"a1", "S0001", "ts1", 0, "ts2", 5, "labas"⟩, ["S0001"])⟩

def c1_seg : Annotation := ⟨"a2", "S0001", "ts3", 10000, "ts4", 12000, "rytas"⟩

theorem split_decision_iff_witness :
    stepSegment 26000 500 500 c1_st c1_seg =
      { grouped_chunks :=
          [finalizeChunk ⟨"a1", "S0001", "ts1", 0, "ts2", 5, "labas"⟩ ["S0001"]],
        current_chunk := some (c1_seg, ["S0001"]) } :=
  (split_decision_iff 26000 500 500 c1_st
      ⟨"a1", "S0001", "ts1", 0, "ts2", 5, "labas"⟩ ["S0001"] c1_seg rfl (by decide)).2.1
    (by decide)

/-- Claim C2: a segment of the scanned input is discarded, meaning the scan
step leaves every state unchanged, exactly when its duration exceeds 30000,
its text is empty, or its text is longer than 700 characters; consequently the
scan of any list equals the scan of its admitted sublist.  The thresholds are
the literals 30000, 0 and 700 of the source, unrelated to the three call
parameters, which range freely here. -/
theorem admission_filter_characterization (maxD maxG : Int) (maxL : Nat)
    (segs : List Annotation) :
    groupSorted maxD maxG maxL segs =
      groupSorted maxD maxG maxL (segs.filter admittedSegment) ∧
    ∀ s : Annotation,
      (admittedSegment s = false ↔
        (s.time_slot_end - s.time_slot_start > 30000 ∨ s.annotation_value.length = 0 ∨
          s.annotation_value.length > 700)) ∧
      ((s.time_slot_end - s.time_slot_start > 30000 ∨ s.annotation_value.length = 0 ∨
          s.annotation_value.length > 700) ↔
        ∀ st : GState, stepSegment maxD maxG maxL st s = st) := by
  refine ⟨?_, ?_⟩
  · rw [groupSorted, groupSorted, foldl_stepSegment_filter]
  · intro s
    have hiff : admittedSegment s = false ↔
        (s.time_slot_end - s.time_slot_start > 30000 ∨ s.annotation_value.length = 0 ∨
          s.annotation_value.length > 700) := by
      rw [← Bool.not_eq_true, admittedSegment_iff]
      constructor
      · intro h; omega
      · intro h; omega
    refine ⟨hiff, ?_, ?_⟩
    · intro h st
      exact stepSegment_not_admitted maxD maxG maxL st s (hiff.mpr h)
    · intro h
      by_contra hc
      have hadm : admittedSegment s = true := by
        rcases Bool.eq_false_or_eq_true (admittedSegment s) with ht | hf
        · exact ht
        · exact absurd (hiff.mp hf) hc
      obtain ⟨ha1, ha2, ha3⟩ := (admittedSegment_iff s).1 hadm
      have hstep := h ⟨[], none⟩
      have hn1 : ¬s.time_slot_end - s.time_slot_start > 30000 := by omega
      have hn3 : ¬s.annotation_value.length > 700 := by omega
      simp [stepSegment, hn1, ha2, hn3] at hstep

/-- The four-segment document of the repository's regression test
(tests/test_parse.py): (0,5,"vienas"), (5,10,"du"), (10,15,"trys"),
(20,30,"keturi") on one tier. -/
def scenario_a_doc : AnnotationDoc :=
  ⟨"", "",
    [⟨"key", "T", "AA", "PP",
      [⟨"key0", "T", "t", 0, "t", 5, "vienas"⟩,
        ⟨"key5", "T", "t", 5, "t", 10, "du"⟩,
        ⟨"key10", "T", "t", 10, "t", 15, "trys"⟩,
        ⟨"key20", "T", "t", 20, "t", 30, "keturi"⟩]⟩],
    []⟩

/-- Claim C3, evaluated: with the default parameters 26000 / 500 / 500 the
code merges all four test segments into one chunk (gap 5 is below 500,
duration 30 below 26000, text length 24 below 500), so the output has length
1, not the 2 chunks the repository's own test asserts. -/
theorem scenario_a_single_chunk :
    (group_transcription_segments scenario_a_doc 26000 500 500).map
        (fun a => (a.time_slot_start, a.time_slot_end, a.annotation_value)) =
      [(0, 30, "vienas | du | trys | keturi")] ∧
    (group_transcription_segments scenario_a_doc 26000 500 500).length = 1 := by
  constructor <;> decide

/-- Claim C4: an output chunk whose duration exceeds max_chunk_duration was
built from exactly one admitted segment, whose duration is at most 30000;
equivalently every chunk of two or more segments respects the duration cap.
Stated over the instrumented scan, whose first components are exactly the
output of group_transcription_segments (theorem group_eq_groupI); the third
conjunct records that. -/
theorem chunk_over_duration_is_single_segment (doc : AnnotationDoc)
    (maxD maxG : Int) (maxL : Nat) (pr : Annotation × List Annotation)
    (hmem : pr ∈ group_transcription_segmentsI doc maxD maxG maxL)
    (hover : pr.1.time_slot_end - pr.1.time_slot_start > maxD) :
    pr.2.length = 1 ∧ pr.1.time_slot_end - pr.1.time_slot_start ≤ 30000 ∧
      pr.1 ∈ group_transcription_segments doc maxD maxG maxL := by
  have hmem' : pr.1 ∈ group_transcription_segments doc maxD maxG maxL := by
    rw [group_eq_groupI]
    exact List.mem_map_of_mem Prod.fst hmem
  by_cases htiers : 0 < doc.tiers.length
  · rw [group_transcription_segmentsI, if_pos htiers] at hmem
    obtain ⟨first, rest, hb, _, _, _, hstart, hend, _, hall, hdur⟩ :=
      groupSortedI_chunkOk maxD maxG maxL _ pr hmem
    have hrest : rest = [] := by
      by_contra hne
      exact absurd (hdur hne) (by omega)
    subst hrest
    refine ⟨by rw [hb]; rfl, ?_, hmem'⟩
    have hfirst : admittedSegment first = true := hall first (by rw [hb]; exact List.mem_cons_self _ _)
    obtain ⟨hdur30, _, _⟩ := (admittedSegment_iff first).1 hfirst
    simp only [List.getLastD_nil] at hend
    omega
  · rw [group_transcription_segmentsI, if_neg htiers] at hmem
    exact absurd hmem (List.not_mem_nil pr)

def c4_seg : Annotation := ⟨"a1", "S0001", "ts1", 0, "ts2", 27000, "ilgas"⟩

def c4_doc : AnnotationDoc := ⟨"", "", [⟨"t1", "S0001", "A", "P", [c4_seg]⟩], []⟩

theorem chunk_over_duration_witness :
    ((finalizeChunk c4_seg ["S0001"], [c4_seg]) : Annotation × List Annotation).2.length = 1 ∧
    (finalizeChunk c4_seg ["S0001"]).time_slot_end -
        (finalizeChunk c4_seg ["S0001"]).time_slot_start ≤ 30000 ∧
    finalizeChunk c4_seg ["S0001"] ∈ group_transcription_segments c4_doc 26000 500 500 :=
  chunk_over_duration_is_single_segment c4_doc 26000 500 500
    (finalizeChunk c4_seg ["S0001"], [c4_seg]) (by decide) (by decide)

/-- Claim C5: the output chunks of group_transcription_segments are sorted by
time_slot_start ascending, and their starts form a sublist of the starts of
the admitted segments of the sorted flattened input, so the output matches
the filtered input's ascending order. -/
theorem output_sorted_by_start (doc : AnnotationDoc) (maxD maxG : Int) (maxL : Nat) :
    List.Sorted startOrder (group_transcription_segments doc maxD maxG maxL) ∧
    ((group_transcription_segments doc maxD maxG maxL).map Annotation.time_slot_start).Sublist
      (((List.insertionSort startOrder (flattenTiers doc)).filter admittedSegment).map
        Annotation.time_slot_start) := by
  by_cases htiers : 0 < doc.tiers.length
  · have hout : group_transcription_segments doc maxD maxG maxL =
        (groupSortedI maxD maxG maxL
          (List.insertionSort startOrder (flattenTiers doc))).map Prod.fst := by
      rw [group_transcription_segments, if_pos htiers, groupSorted_eq_groupSortedI]
    set L := List.insertionSort startOrder (flattenTiers doc) with hL
    set prs := groupSortedI maxD maxG maxL L with hprs
    have hOk : ∀ pr ∈ prs, chunkOk maxD pr := groupSortedI_chunkOk maxD maxG maxL L
    have hghost : (prs.map Prod.snd).flatten = L.filter admittedSegment :=
      groupSortedI_ghost maxD maxG maxL L
    have hfsorted : List.Pairwise startOrder (L.filter admittedSegment) :=
      (List.sorted_insertionSort startOrder (flattenTiers doc)).filter _
    have hfirsts : (firsts (prs.map Prod.snd)).Sublist (L.filter admittedSegment) :=
      hghost ▸ firsts_sublist_flatten (prs.map Prod.snd)
    have hmap : prs.map (fun pr => pr.1.time_slot_start) =
        (firsts (prs.map Prod.snd)).map Annotation.time_slot_start :=
      map_start_eq_firsts maxD prs hOk
    have h1 : List.Pairwise startOrder (firsts (prs.map Prod.snd)) :=
      List.Pairwise.sublist hfirsts hfsorted
    constructor
    · rw [hout]
      have h1' : List.Pairwise (fun x y : Int => x ≤ y)
          ((firsts (prs.map Prod.snd)).map Annotation.time_slot_start) := by
        rw [List.pairwise_map]
        simpa [startOrder] using h1
      rw [← hmap] at h1'
      have h2 : List.Pairwise (fun p q : Annotation × List Annotation =>
          startOrder p.1 q.1) prs := by
        have h3 := List.pairwise_map.mp h1'
        simpa [startOrder] using h3
      show List.Pairwise startOrder (prs.map Prod.fst)
      rw [List.pairwise_map]
      exact h2
    · rw [hout]
      have hmm : ((prs.map Prod.fst).map Annotation.time_slot_start) =
          (firsts (prs.map Prod.snd)).map Annotation.time_slot_start := by
        rw [List.map_map]; exact hmap
      rw [hmm]
      exact List.Sublist.map Annotation.time_slot_start hfirsts
  · have hnil : group_transcription_segments doc maxD maxG maxL = [] := by
      rw [group_transcription_segments, if_neg htiers]
    rw [hnil]
    exact ⟨List.sorted_nil, List.nil_sublist _⟩

/-- Claim C6: the admitted segments of the sorted flattened input are
partitioned, in order, into consecutive nonempty blocks; each output chunk's
text is the " | "-join of one block's texts, so every admitted segment's text
appears in order in exactly one chunk, and there are at most as many chunks
as admitted segments. -/
theorem output_partitions_admitted (doc : AnnotationDoc) (maxD maxG : Int)
    (maxL : Nat) :
    ∃ blocks : List (List Annotation),
      blocks.flatten =
        (List.insertionSort startOrder (flattenTiers doc)).filter admittedSegment ∧
      (∀ b ∈ blocks, b ≠ []) ∧
      (group_transcription_segments doc maxD maxG maxL).map Annotation.annotation_value =
        blocks.map (fun b => pipeJoin (b.map Annotation.annotation_value)) ∧
      (group_transcription_segments doc maxD maxG maxL).length ≤
        ((List.insertionSort startOrder (flattenTiers doc)).filter admittedSegment).length := by
  by_cases htiers : 0 < doc.tiers.length
  · have hout : group_transcription_segments doc maxD maxG maxL =
        (groupSortedI maxD maxG maxL
          (List.insertionSort startOrder (flattenTiers doc))).map Prod.fst := by
      rw [group_transcription_segments, if_pos htiers, groupSorted_eq_groupSortedI]
    set L := List.insertionSort startOrder (flattenTiers doc) with hL
    set prs := groupSortedI maxD maxG maxL L with hprs
    have hOk : ∀ pr ∈ prs, chunkOk maxD pr := groupSortedI_chunkOk maxD maxG maxL L
    have hghost : (prs.map Prod.snd).flatten = L.filter admittedSegment :=
      groupSortedI_ghost maxD maxG maxL L
    have hne : ∀ b ∈ prs.map Prod.snd, b ≠ [] := by
      intro b hb
      obtain ⟨pr, hpr, rfl⟩ := List.mem_map.1 hb
      obtain ⟨first, rest, hb', _⟩ := hOk pr hpr
      rw [hb']
      exact List.cons_ne_nil first rest
    refine ⟨prs.map Prod.snd, hghost, hne, ?_, ?_⟩
    · rw [hout, List.map_map, List.map_map]
      refine List.map_congr_left ?_
      intro pr hpr
      obtain ⟨first, rest, _, _, _, _, _, _, htext, _, _⟩ := hOk pr hpr
      exact htext
    · have h1 : (prs.map Prod.snd).length ≤ ((prs.map Prod.snd).flatten).length :=
        length_le_length_flatten (prs.map Prod.snd) hne
      rw [hghost] at h1
      rw [hout, List.length_map]
      simpa using h1
  · have hnil : group_transcription_segments doc maxD maxG maxL = [] := by
      rw [group_transcription_segments, if_neg htiers]
    have htnil : doc.tiers = [] := List.length_eq_zero.mp (by omega)
    refine ⟨[], ?_, by simp, by simp [hnil], by simp [hnil]⟩
    simp [flattenTiers, htnil, List.insertionSort]

/-- Claim C7: the grouper is total in the embedding (it raises nothing), and
a document whose tiers are all empty of annotations, in particular one with
zero tiers, yields the empty output: either the tier-less branch returns []
directly, or the flattened input is empty and the scan emits no chunk. -/
theorem empty_document_empty_result (doc : AnnotationDoc) (maxD maxG : Int)
    (maxL : Nat) (h : ∀ t ∈ doc.tiers, t.annotations = []) :
    group_transcription_segments doc maxD maxG maxL = [] := by
  by_cases htiers : 0 < doc.tiers.length
  · have hflat : flattenTiers doc = [] := by
      rw [flattenTiers, List.flatten_eq_nil_iff]
      intro l hl
      obtain ⟨t, ht, rfl⟩ := List.mem_map.1 hl
      exact h t ht
    rw [group_transcription_segments, if_pos htiers, hflat]
    rfl
  · rw [group_transcription_segments, if_neg htiers]

def c7_doc : AnnotationDoc := ⟨"m", "p", [⟨"t1", "S0001", "A", "P", []⟩], []⟩

theorem empty_document_empty_result_witness :
    group_transcription_segments c7_doc 26000 500 500 = [] :=
  empty_document_empty_result c7_doc 26000 500 500 (by decide)

/-!
Formatter (format_annotations of parse_eaf.py) and the bulk-parse file
filter (filter_eaf_files_by_subdir of bulk_parse_eaf.py).  The os.path string
helpers are modelled for POSIX paths; the CPython splitext corner case of a
name consisting only of a leading dot is not relied on by any statement.  The
text normalizer (liepa3_normalizer) is an external collaborator of the
formatter and ranges over all functions below.
-/

/-- os.path.basename on a POSIX path string. -/
def basename (p : String) : String := (p.splitOn "/").getLastD ""

/-- os.path.dirname on a POSIX path string. -/
def dirname (p : String) : String := String.intercalate "/" (p.splitOn "/").dropLast

/-- The root part of os.path.splitext: the name up to its last dot. -/
def splitextRoot (s : String) : String :=
  let parts := s.splitOn "."
  if parts.length ≤ 1 then s else String.intercalate "." parts.dropLast

/-- Python's 03 format spec on the counter: zero-pad to width 3. -/
def pad3 (n : Nat) : String :=
  if n < 10 then "00" ++ toString n
  else if n < 100 then "0" ++ toString n
  else toString n

/-- One output row of format_annotations (line 289 of parse_eaf.py), given
the already normalized text. -/
def annotationRow (media_dir_name media_file_name_wo_ext output_mp3_cleaned : String)
    (counter : Nat) (chunk : Annotation) (annotation_value : String) : String :=
  "./" ++ media_dir_name ++ "/" ++ media_file_name_wo_ext ++ ".wav\t" ++
    media_dir_name ++ "/" ++ output_mp3_cleaned ++ "_chunk_" ++ pad3 counter ++ ".mp3\t" ++
    toString chunk.time_slot_start ++ "\t" ++ toString chunk.time_slot_end ++ "\t" ++
    toString (chunk.time_slot_end - chunk.time_slot_start) ++ "\t" ++
    toString annotation_value.length ++ "\t" ++ chunk.tier_id ++ "\t" ++ annotation_value

/-- The loop of format_annotations (lines 281-306 of parse_eaf.py),
instrumented with the counter each accepted row was built from: a rejected
chunk is skipped and the counter stays, an accepted chunk emits its row and
advances the counter. -/
def formatLoop (normalize : String → String)
    (media_dir_name media_file_name_wo_ext output_mp3_cleaned : String) :
    List Annotation → Nat → List (Nat × String)
  | [], _ => []
  | chunk :: rest, counter =>
      let annotation_value := normalize (chunk.annotation_value.replace "\n" " ")
      let segment_length := chunk.time_slot_end - chunk.time_slot_start
      let aStr := annotationRow media_dir_name media_file_name_wo_ext
        output_mp3_cleaned counter chunk annotation_value
      if segment_length > 30000 then
        formatLoop normalize media_dir_name media_file_name_wo_ext
          output_mp3_cleaned rest counter
      else if annotation_value.length = 0 then
        formatLoop normalize media_dir_name media_file_name_wo_ext
          output_mp3_cleaned rest counter
      else if annotation_value.length > 700 then
        formatLoop normalize media_dir_name media_file_name_wo_ext
          output_mp3_cleaned rest counter
      else
        (counter, aStr) :: formatLoop normalize media_dir_name media_file_name_wo_ext
          output_mp3_cleaned rest (counter + 1)

/-- format_annotations of parse_eaf.py: output names derived from the
document's eaf_path, accepted rows joined with newlines, counter starting
at 1. -/
def format_annotations (normalize : String → String) (eaf_doc : AnnotationDoc)
    (group_annotations : List Annotation) : String :=
  let media_file_name := basename eaf_doc.eaf_path
  let media_file_name_wo_ext := splitextRoot media_file_name
  let output_mp3_cleaned :=
    ((media_file_name_wo_ext.replace " " "_").replace "(" "_").replace ")" "_"
  let media_dir_name := basename (dirname eaf_doc.eaf_path)
  String.intercalate "\n"
    ((formatLoop normalize media_dir_name media_file_name_wo_ext output_mp3_cleaned
        group_annotations 1).map Prod.snd)

theorem formatLoop_counters (normalize : String → String) (d f o : String) :
    ∀ (chunks : List Annotation) (counter : Nat),
      (formatLoop normalize d f o chunks counter).map Prod.fst =
        List.range' counter (formatLoop normalize d f o chunks counter).length := by
  intro chunks
  induction chunks with
  | nil => intro _; rfl
  | cons chunk rest ih =>
      intro c
      simp only [formatLoop]
      split_ifs with h1 h2 h3
      · exact ih c
      · exact ih c
      · exact ih c
      · simp only [List.map_cons, List.length_cons, List.range'_succ]
        rw [ih (c + 1)]

/-- Claim C8: the rows format_annotations accepts carry the consecutive
counters 1, 2, ..., k with no gaps, because the counter embedded in the
chunk filename advances only on acceptance; the second conjunct ties the
instrumented loop to format_annotations itself. -/
theorem chunk_counter_consecutive (normalize : String → String)
    (d f o : String) (chunks : List Annotation) (eaf_doc : AnnotationDoc) :
    (formatLoop normalize d f o chunks 1).map Prod.fst =
      List.range' 1 (formatLoop normalize d f o chunks 1).length ∧
    format_annotations normalize eaf_doc chunks =
      String.intercalate "\n"
        ((formatLoop normalize (basename (dirname eaf_doc.eaf_path))
            (splitextRoot (basename eaf_doc.eaf_path))
            ((((splitextRoot (basename eaf_doc.eaf_path)).replace " " "_").replace
                "(" "_").replace ")" "_")
            chunks 1).map Prod.snd) :=
  ⟨formatLoop_counters normalize d f o chunks 1, rfl⟩

/-- os.path.basename(os.path.dirname(file_path)) of bulk_parse_eaf.py. -/
def subdirName (file_path : String) : String := basename (dirname file_path)

/-- The per-file conditional of filter_eaf_files_by_subdir (lines 79-89 of
bulk_parse_eaf.py).  Python set truthiness becomes a nonemptiness test on the
insertion-ordered list model of the subdir-name sets. -/
def appendEafFile (excluded_subdirs include_subdirs : List String)
    (filtered_files : List String) (file_path : String) : List String :=
  let subdir_name := subdirName file_path
  if excluded_subdirs ≠ [] ∧ subdir_name ∉ excluded_subdirs then
    filtered_files ++ [file_path]
  else if include_subdirs ≠ [] ∧ subdir_name ∉ include_subdirs then
    filtered_files ++ [file_path]
  else
    filtered_files ++ [file_path]

/-- filter_eaf_files_by_subdir of bulk_parse_eaf.py: scan the file list and
append under the exclusion/inclusion conditional.  (The source's
file-reading prologue only populates the two sets, and its
FileNotFoundError handler returns eaf_files unchanged, so the sets ranging
freely here covers every combination of present and absent list files.) -/
def filter_eaf_files_by_subdir (eaf_files : List String)
    (excluded_subdirs include_subdirs : List String) : List String :=
  eaf_files.foldl (appendEafFile excluded_subdirs include_subdirs) []

theorem appendEafFile_eq (excluded_subdirs include_subdirs acc : List String)
    (file_path : String) :
    appendEafFile excluded_subdirs include_subdirs acc file_path = acc ++ [file_path] := by
  unfold appendEafFile
  simp only []
  split_ifs <;> rfl

/-- Claim C9: every branch of the per-file conditional appends the file, so
filter_eaf_files_by_subdir is the identity on its file list for every
exclusion and inclusion set. -/
theorem filter_eaf_files_identity (eaf_files excluded_subdirs include_subdirs : List String) :
    filter_eaf_files_by_subdir eaf_files excluded_subdirs include_subdirs = eaf_files := by
  suffices h : ∀ (l acc : List String),
      l.foldl (appendEafFile excluded_subdirs include_subdirs) acc = acc ++ l by
    simpa using h eaf_files []
  intro l
  induction l with
  | nil => intro acc; simp
  | cons x rest ih =>
      intro acc
      rw [List.foldl_cons, appendEafFile_eq, ih]
      simp

/-- Claim C10 (amended): each output chunk keeps the id, time_slot_start_id
and time_slot_end_id of the first segment that opened it and the numeric
time_slot_end of the last merged segment, so the end id still resolves (in a
document whose loader filled first.time_slot_end from that id) to the opening
segment's end value — which differs from the chunk's time_slot_end whenever
the last merged segment ends elsewhere than the first. -/
theorem chunk_ids_from_first_segment (doc : AnnotationDoc) (maxD maxG : Int)
    (maxL : Nat) (pr : Annotation × List Annotation) (first : Annotation)
    (rest : List Annotation)
    (hmem : pr ∈ group_transcription_segmentsI doc maxD maxG maxL)
    (hsegs : pr.2 = first :: rest) :
    pr.1.id = first.id ∧
    pr.1.time_slot_start_id = first.time_slot_start_id ∧
    pr.1.time_slot_end_id = first.time_slot_end_id ∧
    pr.1.time_slot_start = first.time_slot_start ∧
    pr.1.time_slot_end = (rest.getLastD first).time_slot_end ∧
    (resolveTimeSlot doc.time_slots first.time_slot_end_id = some first.time_slot_end →
      resolveTimeSlot doc.time_slots pr.1.time_slot_end_id = some first.time_slot_end) := by
  by_cases htiers : 0 < doc.tiers.length
  · rw [group_transcription_segmentsI, if_pos htiers] at hmem
    obtain ⟨first', rest', hb, hid, hsid, heid, hstart, hend, _, _, _⟩ :=
      groupSortedI_chunkOk maxD maxG maxL _ pr hmem
    rw [hsegs] at hb
    obtain ⟨hf, hr⟩ := List.cons.injEq first rest first' rest' ▸ hb
    subst hf
    subst hr
    exact ⟨hid, hsid, heid, hstart, hend, fun hres => heid ▸ hres⟩
  · rw [group_transcription_segmentsI, if_neg htiers] at hmem
    exact absurd hmem (List.not_mem_nil pr)

def c10w_first : Annotation := ⟨"a1", "S0001", "w1", 0, "w2", 5, "labas"⟩

def c10w_second : Annotation := ⟨"a2", "S0001", "w3", 5, "w4", 10, "rytas"⟩

def c10w_chunk : Annotation := ⟨"a1", "S0001", "w1", 0, "w2", 10, "labas | rytas"⟩

def c10_wit_doc : AnnotationDoc :=
  ⟨"", "", [⟨"t1", "S0001", "A", "P", [c10w_first, c10w_second]⟩],
    [⟨"w1", 0⟩, ⟨"w2", 5⟩, ⟨"w3", 5⟩, ⟨"w4", 10⟩]⟩

theorem chunk_ids_from_first_segment_witness :
    c10w_chunk.id = c10w_first.id ∧
    c10w_chunk.time_slot_start_id = c10w_first.time_slot_start_id ∧
    c10w_chunk.time_slot_end_id = c10w_first.time_slot_end_id ∧
    c10w_chunk.time_slot_start = c10w_first.time_slot_start ∧
    c10w_chunk.time_slot_end = ([c10w_second].getLastD c10w_first).time_slot_end ∧
    (resolveTimeSlot c10_wit_doc.time_slots c10w_first.time_slot_end_id =
        some c10w_first.time_slot_end →
      resolveTimeSlot c10_wit_doc.time_slots c10w_chunk.time_slot_end_id =
        some c10w_first.time_slot_end) :=
  chunk_ids_from_first_segment c10_wit_doc 26000 500 500
    (c10w_chunk, [c10w_first, c10w_second]) c10w_first [c10w_second] (by decide) rfl

/-- The document refuting claim C10 as stated: two same-tier annotations both
spanning 0..10 merge into one two-segment chunk whose time_slot_end_id (the
first segment's) still resolves to a time slot whose value equals the chunk's
time_slot_end. -/
def c10_cex_doc : AnnotationDoc :=
  ⟨"", "",
    [⟨"t1", "S0001", "A", "P",
      [⟨"a1", "S0001", "ts1", 0, "ts2", 10, "labas"⟩,
        ⟨"a2", "S0001", "ts3", 0, "ts4", 10, "rytas"⟩]⟩],
    [⟨"ts1", 0⟩, ⟨"ts2", 10⟩, ⟨"ts3", 0⟩, ⟨"ts4", 10⟩]⟩

/-- Counterexample to claim C10's final clause: a chunk built from two
segments whose time_slot_end_id does refer to a time slot whose value is the
chunk's time_slot_end. -/
theorem chunk_end_id_still_resolves_cex :
    ∃ pr ∈ group_transcription_segmentsI c10_cex_doc 26000 500 500,
      2 ≤ pr.2.length ∧
      resolveTimeSlot c10_cex_doc.time_slots pr.1.time_slot_end_id =
        some pr.1.time_slot_end := by
  decide

end EafToDataset
